import Mathlib

/-!
Verification of the GGUF binary codec of `GGUF-Extractor/gguf_extractor.py`.

The reader (`GGUFExtractor.analyze_gguf` with helpers `_read_metadata`,
`_read_metadata_value`, `_read_tensor_info`) is embedded as pure functions
over a byte list with an explicit cursor position.  Python file-object
semantics are modelled faithfully:
  * `f.read(n)` returns as many of the next `n` bytes as are available
    (a short read at end of file is NOT an error by itself);
  * `struct.unpack(fmt, b)` raises `struct.error` when `b` has the wrong
    length, modelled by the `Err.structError` result;
  * `bytes.decode('utf-8')` raises `UnicodeDecodeError` on invalid UTF-8,
    modelled by `Err.unicodeError`;
  * the two `raise ValueError` sites of the reader are modelled by
    `Err.badMagic` (magic mismatch) and `Err.unknownValueType`
    (metadata value tag outside 0..9).
The writer of the repository (`_repackage_gguf`) copies the source file
unchanged; it is embedded as the identity on the source bytes.
-/

/-- Error taxonomy of the reader.  These are exactly the exception kinds the
Python code can raise on malformed input; the code has no separate
truncation condition, no version check, and no unknown-tensor-type error.
`fuelOut` is an artifact of the embedding of the unboundedly recursive
array decoder; the top-level entry point supplies enough fuel that it is
unreachable (each nesting level consumes 12 bytes of input before
descending, so nesting depth is at most `length / 12`). -/
inductive Err where
  | badMagic
  | structError
  | unicodeError
  | unknownValueType
  | fuelOut
deriving DecidableEq

/-- Recursive metadata value model: the nine scalar kinds plus arrays.
Python returns the float bit-for-bit; we keep the raw 4-byte little-endian
pattern.  Decoded strings are kept as their UTF-8 byte sequences (equality
of valid UTF-8 byte sequences coincides with equality of the decoded
Python strings).  Python returns arrays as plain lists, losing the element
type tag, so the model does too. -/
inductive MetaValue where
  | uint8 (v : Nat)
  | int8 (v : Int)
  | uint16 (v : Nat)
  | int16 (v : Int)
  | uint32 (v : Nat)
  | int32 (v : Int)
  | float32 (bits : Nat)
  | boolean (b : Bool)
  | string (bytes : List Nat)
  | array (elems : List MetaValue)

/-- Python dict with string keys: an ordered association list with unique
keys (uniqueness is maintained by `dictInsert`). -/
abbrev MetadataMap := List (List Nat × MetaValue)

/-- The fixed magic, `b'GGUF'` (`GGUFStructure.MAGIC`). -/
def MAGIC : List Nat := [71, 71, 85, 70]

/-- Python `f.read(n)` at position `pos`: up to `n` of the remaining bytes. -/
def fread (bs : List Nat) (pos n : Nat) : List Nat :=
  (bs.drop pos).take n

/-- Little-endian value of a byte list. -/
def leVal : List Nat → Nat
  | [] => 0
  | x :: r => x + 256 * leVal r

/-- Two's-complement reinterpretation used by the signed `struct` formats. -/
def toSigned (width raw : Nat) : Int :=
  if raw < 2 ^ (8 * width - 1) then (raw : Int) else (raw : Int) - 2 ^ (8 * width)

/-- Model of `struct.unpack('<B'/'<H'/'<I'/'<Q', f.read(width))[0]`:
a short read leaves `unpack` with a buffer of the wrong size, which raises
`struct.error`. -/
def readUInt (width : Nat) (bs : List Nat) (pos : Nat) : Except Err (Nat × Nat) :=
  let b := fread bs pos width
  if b.length = width then .ok (leVal b, pos + width) else .error .structError

/-- Model of the signed variants `struct.unpack('<b'/'<h'/'<i', ...)`. -/
def readSInt (width : Nat) (bs : List Nat) (pos : Nat) : Except Err (Int × Nat) :=
  match readUInt width bs pos with
  | .error e => .error e
  | .ok (raw, p) => .ok (toSigned width raw, p)

/-- Continuation byte test, `0x80 ≤ b ≤ 0xBF`. -/
def utf8Cont (b : Nat) : Bool := 128 ≤ b && b < 192

/-- Validity of a byte sequence under Python's strict `decode('utf-8')`
(rejecting overlong forms, surrogates, and code points above U+10FFFF). -/
def utf8Valid : List Nat → Bool
  | [] => true
  | b :: r =>
    if b < 128 then utf8Valid r
    else if b < 194 then false
    else if b < 224 then
      match r with
      | c :: r2 => utf8Cont c && utf8Valid r2
      | [] => false
    else if b < 240 then
      match r with
      | c :: d :: r2 =>
        (if b = 224 then decide (160 ≤ c) && decide (c < 192)
         else if b = 237 then decide (128 ≤ c) && decide (c < 160)
         else utf8Cont c) && utf8Cont d && utf8Valid r2
      | _ => false
    else if b < 245 then
      match r with
      | c :: d :: e :: r2 =>
        (if b = 240 then decide (144 ≤ c) && decide (c < 192)
         else if b = 244 then decide (128 ≤ c) && decide (c < 144)
         else utf8Cont c) && utf8Cont d && utf8Cont e && utf8Valid r2
      | _ => false
    else false

/-- Model of `f.read(len).decode('utf-8')`: takes whatever bytes are
available (Python's read never raises at EOF) and then decodes. -/
def readPyStr (bs : List Nat) (pos len : Nat) : Except Err (List Nat × Nat) :=
  let b := fread bs pos len
  if utf8Valid b then .ok (b, pos + b.length) else .error .unicodeError

/-- Runs an element reader `count` times from position `pos`, collecting the
results in order; models Python's fail-fast list comprehension
`[rd() for _ in range(count)]`. -/
def iterRead {α : Type} (rd : Nat → Except Err (α × Nat)) :
    Nat → Nat → Except Err (List α × Nat)
  | 0, pos => .ok ([], pos)
  | count + 1, pos =>
    match rd pos with
    | .error e => .error e
    | .ok (v, p) =>
      match iterRead rd count p with
      | .error e => .error e
      | .ok (vs, p2) => .ok (v :: vs, p2)

/-- Embedding of `GGUFExtractor._read_metadata_value`.  The dispatch on
`value_type` is the source's if/elif chain; tags outside 0..9 hit the
final `raise ValueError` (the code never skips or substitutes).  The
`fuel` parameter only bounds array nesting depth (see `Err.fuelOut`). -/
def read_metadata_value : Nat → Nat → List Nat → Nat → Except Err (MetaValue × Nat)
  | 0, _, _, _ => .error .fuelOut
  | fuel + 1, value_type, bs, pos =>
    if value_type = 0 then
      match readUInt 1 bs pos with
      | .error e => .error e
      | .ok (v, p) => .ok (.uint8 v, p)
    else if value_type = 1 then
      match readSInt 1 bs pos with
      | .error e => .error e
      | .ok (v, p) => .ok (.int8 v, p)
    else if value_type = 2 then
      match readUInt 2 bs pos with
      | .error e => .error e
      | .ok (v, p) => .ok (.uint16 v, p)
    else if value_type = 3 then
      match readSInt 2 bs pos with
      | .error e => .error e
      | .ok (v, p) => .ok (.int16 v, p)
    else if value_type = 4 then
      match readUInt 4 bs pos with
      | .error e => .error e
      | .ok (v, p) => .ok (.uint32 v, p)
    else if value_type = 5 then
      match readSInt 4 bs pos with
      | .error e => .error e
      | .ok (v, p) => .ok (.int32 v, p)
    else if value_type = 6 then
      match readUInt 4 bs pos with
      | .error e => .error e
      | .ok (v, p) => .ok (.float32 v, p)
    else if value_type = 7 then
      match readUInt 1 bs pos with
      | .error e => .error e
      | .ok (v, p) => .ok (.boolean (v != 0), p)
    else if value_type = 8 then
      match readUInt 8 bs pos with
      | .error e => .error e
      | .ok (strLen, p) =>
        match readPyStr bs p strLen with
        | .error e => .error e
        | .ok (s, p2) => .ok (.string s, p2)
    else if value_type = 9 then
      match readUInt 4 bs pos with
      | .error e => .error e
      | .ok (array_type, p) =>
        match readUInt 8 bs p with
        | .error e => .error e
        | .ok (array_len, p2) =>
          match iterRead (fun q => read_metadata_value fuel array_type bs q) array_len p2 with
          | .error e => .error e
          | .ok (vs, p3) => .ok (.array vs, p3)
    else .error .unknownValueType

/-- Python `metadata[key] = value` on a dict: overwrite in place when the
key is present (keeping its position), otherwise append. -/
def dictInsert (m : MetadataMap) (k : List Nat) (v : MetaValue) : MetadataMap :=
  if m.any (fun kv => kv.1 == k) then
    m.map (fun kv => if kv.1 == k then (k, v) else kv)
  else m ++ [(k, v)]

/-- Embedding of the loop body sequence of `GGUFExtractor._read_metadata`,
threading the dict being built (`metadata = {}` then `metadata[key] = value`). -/
def read_metadata_from (fuel : Nat) :
    Nat → MetadataMap → List Nat → Nat → Except Err (MetadataMap × Nat)
  | 0, m, _, pos => .ok (m, pos)
  | count + 1, m, bs, pos =>
    match readUInt 8 bs pos with
    | .error e => .error e
    | .ok (key_len, p1) =>
      match readPyStr bs p1 key_len with
      | .error e => .error e
      | .ok (key, p2) =>
        match readUInt 4 bs p2 with
        | .error e => .error e
        | .ok (value_type, p3) =>
          match read_metadata_value fuel value_type bs p3 with
          | .error e => .error e
          | .ok (value, p4) => read_metadata_from fuel count (dictInsert m key value) bs p4

/-- `GGUFExtractor._read_metadata`: starts from the empty dict. -/
def read_metadata (fuel count : Nat) (bs : List Nat) (pos : Nat) :
    Except Err (MetadataMap × Nat) :=
  read_metadata_from fuel count [] bs pos

/-- Ghost variant of `read_metadata` that returns the raw key/value pairs in
read order instead of folding them into a dict; it consumes exactly the
same bytes.  Used to state what happens on duplicate keys. -/
def read_metadata_pairs (fuel : Nat) :
    Nat → List Nat → Nat → Except Err (List (List Nat × MetaValue) × Nat)
  | 0, _, pos => .ok ([], pos)
  | count + 1, bs, pos =>
    match readUInt 8 bs pos with
    | .error e => .error e
    | .ok (key_len, p1) =>
      match readPyStr bs p1 key_len with
      | .error e => .error e
      | .ok (key, p2) =>
        match readUInt 4 bs p2 with
        | .error e => .error e
        | .ok (value_type, p3) =>
          match read_metadata_value fuel value_type bs p3 with
          | .error e => .error e
          | .ok (value, p4) =>
            match read_metadata_pairs fuel count bs p4 with
            | .error e => .error e
            | .ok (rest, p5) => .ok ((key, value) :: rest, p5)

/-- `GGUFStructure.TENSOR_TYPES.get(t, f"UNKNOWN({t})")`: the 16-entry
tensor type table with the f-string fallback for unknown codes. -/
def tensorTypeName (t : Nat) : String :=
  if t = 0 then "F32" else if t = 1 then "F16"
  else if t = 2 then "Q4_0" else if t = 3 then "Q4_1"
  else if t = 4 then "Q5_0" else if t = 5 then "Q5_1"
  else if t = 6 then "Q8_0" else if t = 7 then "Q8_1"
  else if t = 8 then "Q2_K" else if t = 9 then "Q3_K"
  else if t = 10 then "Q4_K" else if t = 11 then "Q5_K"
  else if t = 12 then "Q6_K" else if t = 13 then "Q8_K"
  else if t = 14 then "IQ2_XXS" else if t = 15 then "IQ2_XS"
  else "UNKNOWN(" ++ toString t ++ ")"

/-- One entry of the list built by `GGUFExtractor._read_tensor_info`. -/
structure TensorInfo where
  name : List Nat
  dimensions : List Nat
  type : String
  type_id : Nat
  offset : Nat
deriving DecidableEq

/-- Embedding of `GGUFExtractor._read_tensor_info`. -/
def read_tensor_info : Nat → List Nat → Nat → Except Err (List TensorInfo × Nat)
  | 0, _, pos => .ok ([], pos)
  | count + 1, bs, pos =>
    match readUInt 8 bs pos with
    | .error e => .error e
    | .ok (name_len, p1) =>
      match readPyStr bs p1 name_len with
      | .error e => .error e
      | .ok (name, p2) =>
        match readUInt 4 bs p2 with
        | .error e => .error e
        | .ok (n_dims, p3) =>
          match iterRead (fun q => readUInt 8 bs q) n_dims p3 with
          | .error e => .error e
          | .ok (dimensions, p4) =>
            match readUInt 4 bs p4 with
            | .error e => .error e
            | .ok (tensor_type, p5) =>
              match readUInt 8 bs p5 with
              | .error e => .error e
              | .ok (offset, p6) =>
                match read_tensor_info count bs p6 with
                | .error e => .error e
                | .ok (rest, p7) =>
                  .ok ({ name := name, dimensions := dimensions,
                         type := tensorTypeName tensor_type,
                         type_id := tensor_type, offset := offset } :: rest, p7)

/-- The structural fields of the analysis dict built by
`GGUFExtractor.analyze_gguf`: header fields, metadata dict, tensor list.
(`metadata_kv_count` is the declared header field; the code stores it in
the analysis as `metadata_count` without reconciling it with the dict.) -/
structure GGUFDoc where
  version : Nat
  tensor_count : Nat
  metadata_kv_count : Nat
  metadata : MetadataMap
  tensors : List TensorInfo

/-- Embedding of the reading part of `GGUFExtractor.analyze_gguf`: magic
check, then version / tensor_count / metadata_kv_count, then metadata,
then tensor descriptors.  Returns the document together with the final
cursor position (the end of the descriptor table); the code reads nothing
past it.  The fuel `bs.length + 2` strictly exceeds any reachable array
nesting depth. -/
def analyze_gguf (bs : List Nat) : Except Err (GGUFDoc × Nat) :=
  let magic := fread bs 0 4
  if magic = MAGIC then
    match readUInt 4 bs 4 with
    | .error e => .error e
    | .ok (version, p1) =>
      match readUInt 8 bs p1 with
      | .error e => .error e
      | .ok (tensor_count, p2) =>
        match readUInt 8 bs p2 with
        | .error e => .error e
        | .ok (metadata_kv_count, p3) =>
          match read_metadata (bs.length + 2) metadata_kv_count bs p3 with
          | .error e => .error e
          | .ok (metadata, p4) =>
            match read_tensor_info tensor_count bs p4 with
            | .error e => .error e
            | .ok (tensors, p5) =>
              .ok ({ version := version, tensor_count := tensor_count,
                     metadata_kv_count := metadata_kv_count,
                     metadata := metadata, tensors := tensors }, p5)
  else .error .badMagic

/-- Embedding of `GGUFExtractor._repackage_gguf`: the repository's writer
is a stub that copies the source file unchanged (`shutil.copy2`) and
ignores the modified metadata. -/
def repackage_gguf (sourceBytes : List Nat) (_modifiedMetadata : MetadataMap) : List Nat :=
  sourceBytes

/-- Embedding of `GGUFExtractor.save_virtual_mount`: loads the (possibly
edited) metadata of the mount and hands source bytes plus that metadata to
`_repackage_gguf`, whose output is the written file. -/
def save_virtual_mount (sourceBytes : List Nat) (mountMetadata : MetadataMap) : List Nat :=
  repackage_gguf sourceBytes mountMetadata

/-- Key removal as performed by `GGUFExtractor.strip_telemetry`:
`if key in metadata: del metadata[key]` — on a dict (unique keys) this is
exactly the removal of every pair holding the key, with the other pairs
left in order. -/
def removeKey (m : MetadataMap) (k : List Nat) : MetadataMap :=
  if m.any (fun kv => kv.1 == k) then m.filter (fun kv => !(kv.1 == k)) else m

/-- The fixed `telemetry_keys` list of `GGUFExtractor.strip_telemetry`. -/
def telemetry_keys : List (List Nat) :=
  [ [103, 101, 110, 101, 114, 97, 108, 46, 115, 111, 117, 114, 99, 101, 46, 117, 114, 108],
    [103, 101, 110, 101, 114, 97, 108, 46, 115, 111, 117, 114, 99, 101, 46, 104, 117, 103,
     103, 105, 110, 103, 102, 97, 99, 101, 46, 114, 101, 112, 111, 115, 105, 116, 111, 114, 121],
    [116, 114, 97, 105, 110, 105, 110, 103, 46, 100, 97, 116, 97, 115, 101, 116],
    [116, 114, 97, 105, 110, 105, 110, 103, 46, 100, 97, 116, 97, 95, 117, 114, 108],
    [103, 101, 110, 101, 114, 97, 108, 46, 108, 105, 99, 101, 110, 115, 101],
    [103, 101, 110, 101, 114, 97, 108, 46, 98, 97, 115, 101, 95, 109, 111, 100, 101, 108,
     46, 115, 111, 117, 114, 99, 101] ]

/-- The metadata transform of `GGUFExtractor.strip_telemetry`: for each of
the six fixed telemetry keys in order, remove it if present. -/
def strip_telemetry (m : MetadataMap) : MetadataMap :=
  telemetry_keys.foldl removeKey m

/-! ## Concrete test files and their expected parses -/

/-- Concrete scenario file of spec section 8: header (v3, tensor_count=1, metadata_kv_count=2), metadata general.architecture="llama" and tokenizer.ggml.tokens=["a","b","c"], descriptor tok_embd dims [3,4] type F32 offset 0, 3 pad bytes to the 32-boundary, 48 payload bytes. Structural section ends at byte 189; total length 240. -/
def scenarioBytes : List Nat := [71, 71, 85, 70, 3, 0, 0, 0, 1, 0, 0, 0, 0, 0, 0, 0, 2, 0, 0, 0, 0, 0, 0, 0, 20, 0, 0, 0, 0, 0, 0, 0, 103, 101, 110, 101, 114, 97, 108, 46, 97, 114, 99, 104, 105, 116, 101, 99, 116, 117, 114, 101, 8, 0, 0, 0, 5, 0, 0, 0, 0, 0, 0, 0, 108, 108, 97, 109, 97, 21, 0, 0, 0, 0, 0, 0, 0, 116, 111, 107, 101, 110, 105, 122, 101, 114, 46, 103, 103, 109, 108, 46, 116, 111, 107, 101, 110, 115, 9, 0, 0, 0, 8, 0, 0, 0, 3, 0, 0, 0, 0, 0, 0, 0, 1, 0, 0, 0, 0, 0, 0, 0, 97, 1, 0, 0, 0, 0, 0, 0, 0, 98, 1, 0, 0, 0, 0, 0, 0, 0, 99, 8, 0, 0, 0, 0, 0, 0, 0, 116, 111, 107, 95, 101, 109, 98, 100, 2, 0, 0, 0, 3, 0, 0, 0, 0, 0, 0, 0, 4, 0, 0, 0, 0, 0, 0, 0, 0, 0, 0, 0, 0, 0, 0, 0, 0, 0, 0, 0, 0, 0, 0, 0, 0, 0, 0, 0, 0, 0, 0, 0, 0, 0, 0, 0, 0, 0, 0, 0, 0, 0, 0, 0, 0, 0, 0, 0, 0, 0, 0, 0, 0, 0, 0, 0, 0, 0, 0, 0, 0, 0, 0, 0, 0, 0, 0, 0, 0, 0, 0]

/-- Minimal valid file: header (v3, tensor_count=1, metadata_kv_count=0), descriptor name "t" dims [1] type F32 offset 0. Structural section ends at byte 57; 7 pad bytes; 4 payload bytes; total length 68. -/
def minValidBytes : List Nat := [71, 71, 85, 70, 3, 0, 0, 0, 1, 0, 0, 0, 0, 0, 0, 0, 0, 0, 0, 0, 0, 0, 0, 0, 1, 0, 0, 0, 0, 0, 0, 0, 116, 1, 0, 0, 0, 1, 0, 0, 0, 0, 0, 0, 0, 0, 0, 0, 0, 0, 0, 0, 0, 0, 0, 0, 0, 0, 0, 0, 0, 0, 0, 0, 0, 0, 0, 0]

/-- Well-formed 57-byte file whose single tensor descriptor declares element-type code 99, which is outside the 16-entry tensor type table. -/
def unkTensorTypeBytes : List Nat := [71, 71, 85, 70, 3, 0, 0, 0, 1, 0, 0, 0, 0, 0, 0, 0, 0, 0, 0, 0, 0, 0, 0, 0, 1, 0, 0, 0, 0, 0, 0, 0, 116, 1, 0, 0, 0, 5, 0, 0, 0, 0, 0, 0, 0, 99, 0, 0, 0, 0, 0, 0, 0, 0, 0, 0, 0]

/-- 24-byte file with valid magic but version field 99 (tensor_count=0, metadata_kv_count=0). -/
def version99Bytes : List Nat := [71, 71, 85, 70, 99, 0, 0, 0, 0, 0, 0, 0, 0, 0, 0, 0, 0, 0, 0, 0, 0, 0, 0, 0]

/-- File declaring one metadata entry: key "k", an array of element type 0 (UINT8) with declared length 1000, but only 2 element bytes (7 and 8) present. Elements start at byte 49; total length 51. -/
def hugeArrayBytes : List Nat := [71, 71, 85, 70, 3, 0, 0, 0, 0, 0, 0, 0, 0, 0, 0, 0, 1, 0, 0, 0, 0, 0, 0, 0, 1, 0, 0, 0, 0, 0, 0, 0, 107, 9, 0, 0, 0, 0, 0, 0, 0, 232, 3, 0, 0, 0, 0, 0, 0, 7, 8]

/-- File declaring one metadata entry: key "k", an array of element type 99 (unknown) with declared length 1000000000 and no element bytes present. -/
def hugeArrayUnkElemBytes : List Nat := [71, 71, 85, 70, 3, 0, 0, 0, 0, 0, 0, 0, 0, 0, 0, 0, 1, 0, 0, 0, 0, 0, 0, 0, 1, 0, 0, 0, 0, 0, 0, 0, 107, 9, 0, 0, 0, 99, 0, 0, 0, 0, 202, 154, 59, 0, 0, 0, 0]

/-- 52-byte file with declared metadata_kv_count=2 and two metadata entries carrying the same key "k": first UINT8 value 1, then UINT8 value 2 (tensor_count=0). -/
def dupKeyBytes : List Nat := [71, 71, 85, 70, 3, 0, 0, 0, 0, 0, 0, 0, 0, 0, 0, 0, 2, 0, 0, 0, 0, 0, 0, 0, 1, 0, 0, 0, 0, 0, 0, 0, 107, 0, 0, 0, 0, 1, 1, 0, 0, 0, 0, 0, 0, 0, 107, 0, 0, 0, 0, 2]
/-- UTF-8 bytes of the key "general.architecture". -/
def archKey : List Nat :=
  [103, 101, 110, 101, 114, 97, 108, 46, 97, 114, 99, 104, 105, 116, 101, 99, 116, 117, 114, 101]

/-- UTF-8 bytes of the key "tokenizer.ggml.tokens". -/
def tokensKey : List Nat :=
  [116, 111, 107, 101, 110, 105, 122, 101, 114, 46, 103, 103, 109, 108, 46, 116, 111, 107, 101, 110, 115]

/-- The document the reader produces from `scenarioBytes`. -/
def scenarioDoc : GGUFDoc :=
  { version := 3, tensor_count := 1, metadata_kv_count := 2,
    metadata := [ (archKey, .string [108, 108, 97, 109, 97]),
                  (tokensKey, .array [.string [97], .string [98], .string [99]]) ],
    tensors := [ { name := [116, 111, 107, 95, 101, 109, 98, 100],
                   dimensions := [3, 4], type := "F32", type_id := 0, offset := 0 } ] }

/-- The metadata of the scenario mount after removing "tokenizer.ggml.tokens". -/
def editedScenarioMetadata : MetadataMap :=
  removeKey scenarioDoc.metadata tokensKey

/-- The document the reader produces from `minValidBytes`. -/
def minValidDoc : GGUFDoc :=
  { version := 3, tensor_count := 1, metadata_kv_count := 0,
    metadata := [],
    tensors := [ { name := [116], dimensions := [1], type := "F32", type_id := 0, offset := 0 } ] }

/-- The document the reader produces from `unkTensorTypeBytes`: the unknown
element-type code 99 is kept with the substituted placeholder label. -/
def unkTensorTypeDoc : GGUFDoc :=
  { version := 3, tensor_count := 1, metadata_kv_count := 0,
    metadata := [],
    tensors := [ { name := [116], dimensions := [5], type := "UNKNOWN(99)", type_id := 99, offset := 0 } ] }

/-- The document the reader produces from `version99Bytes`. -/
def version99Doc : GGUFDoc :=
  { version := 99, tensor_count := 0, metadata_kv_count := 0, metadata := [], tensors := [] }

/-- The document the reader produces from `dupKeyBytes`: one surviving dict
entry holding the later value, under the declared count of 2. -/
def dupKeyDoc : GGUFDoc :=
  { version := 3, tensor_count := 0, metadata_kv_count := 2,
    metadata := [([107], .uint8 2)], tensors := [] }

/-- Whether a read result is an error. -/
def isErr {α : Type} : Except Err α → Bool
  | .error _ => true
  | .ok _ => false

/-- Whether a read result is the specific error `e`. -/
def isErrKind {α : Type} (e : Err) : Except Err α → Bool
  | .error e2 => e2 == e
  | .ok _ => false

/-- Python `dict.get(k)` on the ordered map. -/
def lookupKey (m : MetadataMap) (k : List Nat) : Option MetaValue :=
  (m.find? (fun kv => kv.1 == k)).map (fun kv => kv.2)

/-- The value of the last entry of `prs` carrying key `k`, if any. -/
def lastValue : List (List Nat × MetaValue) → List Nat → Option MetaValue
  | [], _ => none
  | kv :: prs, k =>
    match lastValue prs k with
    | some v => some v
    | none => if kv.1 == k then some kv.2 else none

/-- Folding a pair list into a dict by repeated `dictInsert`, as the
metadata loop does. -/
def insertAll (m : MetadataMap) (prs : List (List Nat × MetaValue)) : MetadataMap :=
  prs.foldl (fun mm kv => dictInsert mm kv.1 kv.2) m

/-! ## Claim theorems -/

set_option maxRecDepth 100000

/-- Claim C1 (code_bug evidence): on the concrete scenario file, after
removing "tokenizer.ggml.tokens" from the mounted metadata (leaving 1 key)
and saving via `save_virtual_mount`, the written output is byte-identical
to the original file — the stubbed `_repackage_gguf` copies the source —
so it re-parses with `metadata_kv_count` 2, not the claimed 1. -/
theorem C1_repackage_stub_keeps_declared_kv_count :
    analyze_gguf scenarioBytes = .ok (scenarioDoc, 189) ∧
    editedScenarioMetadata.length = 1 ∧
    save_virtual_mount scenarioBytes editedScenarioMetadata = scenarioBytes ∧
    analyze_gguf (save_virtual_mount scenarioBytes editedScenarioMetadata) =
      .ok (scenarioDoc, 189) ∧
    scenarioDoc.metadata_kv_count = 2 :=
  ⟨rfl, rfl, rfl, rfl, rfl⟩

/-- Claim C2: for every file whose bytes parse into a document, writing the
document back with no edits applied (`save_virtual_mount` with the
document's own metadata) and re-parsing yields the same document — the
writer emits the source bytes verbatim, so the re-parse is literally the
original parse, equal in every field and in the final cursor position. -/
theorem C2_roundtrip_identity (bs : List Nat) (doc : GGUFDoc) (S : Nat)
    (h : analyze_gguf bs = .ok (doc, S)) :
    analyze_gguf (save_virtual_mount bs doc.metadata) = .ok (doc, S) :=
  h

/-- Witness for C2 at the concrete scenario file. -/
theorem C2_roundtrip_identity_witness :
    analyze_gguf (save_virtual_mount scenarioBytes scenarioDoc.metadata) =
      .ok (scenarioDoc, 189) :=
  C2_roundtrip_identity scenarioBytes scenarioDoc 189 rfl

/-- Claim C4 (counterexample): a well-formed file whose tensor descriptor
declares element-type code 99 — outside the known tensor-type table — is
NOT rejected: the read succeeds and the descriptor carries the substituted
placeholder label "UNKNOWN(99)". -/
theorem C4_counterexample_unknown_tensor_type_accepted :
    analyze_gguf unkTensorTypeBytes = .ok (unkTensorTypeDoc, 57) ∧
    unkTensorTypeDoc.tensors =
      [ { name := [116], dimensions := [5], type := "UNKNOWN(99)",
          type_id := 99, offset := 0 } ] :=
  ⟨rfl, rfl⟩

/-- Claim C4 as amended: a metadata value_type tag outside 0..9 is a hard
failure of the whole read (the `ValueError` at the end of
`_read_metadata_value`), but an unknown tensor element-type code is NOT an
error: `TENSOR_TYPES.get` substitutes the placeholder "UNKNOWN(code)" and
parsing continues, as the accepted type-99 file shows. -/
theorem C4_unknown_value_tag_fails_unknown_tensor_type_substituted :
    (∀ fuel value_type bs pos, 10 ≤ value_type →
      read_metadata_value (fuel + 1) value_type bs pos = .error .unknownValueType) ∧
    (∀ t, 16 ≤ t → tensorTypeName t = "UNKNOWN(" ++ toString t ++ ")") ∧
    analyze_gguf unkTensorTypeBytes = .ok (unkTensorTypeDoc, 57) := by
  refine ⟨?_, ?_, rfl⟩
  · intro fuel value_type bs pos h
    simp only [read_metadata_value]
    repeat rw [if_neg (by omega)]
  · intro t h
    simp only [tensorTypeName]
    repeat rw [if_neg (by omega)]

/-- Witness for C4's amended theorem at tag 10 and tensor-type code 16. -/
theorem C4_unknown_value_tag_witness :
    read_metadata_value 1 10 [] 0 = .error .unknownValueType ∧
    tensorTypeName 16 = "UNKNOWN(" ++ toString 16 ++ ")" :=
  ⟨C4_unknown_value_tag_fails_unknown_tensor_type_substituted.1 0 10 [] 0 (by norm_num),
   C4_unknown_value_tag_fails_unknown_tensor_type_substituted.2.1 16 (by norm_num)⟩

/-- Claim C5 (counterexample): a file with valid magic but version 99 — not
a supported value — parses successfully; the reader never checks the
version field. -/
theorem C5_counterexample_version99_accepted :
    analyze_gguf version99Bytes = .ok (version99Doc, 24) ∧
    version99Doc.version = 99 :=
  ⟨rfl, rfl⟩

/-- Claim C5 as amended: a magic mismatch is a hard parse failure
(`badMagic`) for every input byte stream, but the uint32 version field is
read and stored without any validation — version 99 is accepted. -/
theorem C5_bad_magic_rejected_version_unchecked :
    (∀ bs : List Nat, bs.take 4 ≠ MAGIC → analyze_gguf bs = .error .badMagic) ∧
    analyze_gguf version99Bytes = .ok (version99Doc, 24) ∧
    version99Doc.version = 99 := by
  refine ⟨?_, rfl, rfl⟩
  intro bs h
  unfold analyze_gguf
  simp only [fread, List.drop_zero]
  rw [if_neg h]

/-- Witness for C5's amended theorem at a 3-byte input. -/
theorem C5_bad_magic_witness :
    analyze_gguf [1, 2, 3] = .error .badMagic :=
  C5_bad_magic_rejected_version_unchecked.1 [1, 2, 3] (by decide)

/-- Claim C6 (counterexample): on an input whose array value declares
length 1000000000 with no remaining bytes and an unknown element type, the
reader fails with `unknownValueType` — raised from inside the decode of
the first element — not with any truncation condition and not before
attempting element decode. -/
theorem C6_counterexample_huge_array_attempts_decode :
    analyze_gguf hugeArrayUnkElemBytes = .error .unknownValueType :=
  rfl

/-- Claim C6 as amended: `_read_metadata_value` has no plausibility guard on
declared array lengths.  For a declared length of 1000 with only 2 element
bytes remaining, it attempts element-by-element decode — the 2 available
UINT8 elements decode fine — and fails with the short-read `struct.error`
at the third element; the code has no TruncatedInput condition. -/
theorem C6_no_length_guard_short_read_struct_error :
    analyze_gguf hugeArrayBytes = .error .structError ∧
    iterRead (fun q => read_metadata_value 52 0 hugeArrayBytes q) 2 49 =
      .ok ([.uint8 7, .uint8 8], 51) ∧
    iterRead (fun q => read_metadata_value 52 0 hugeArrayBytes q) 1000 49 =
      .error .structError :=
  ⟨rfl, rfl, rfl⟩

/-- The guarded Python removal `if key in m: del m[key]` equals an
unconditional filter of the pairs carrying the key. -/
theorem removeKey_eq_filter (m : MetadataMap) (k : List Nat) :
    removeKey m k = m.filter (fun kv => !(kv.1 == k)) := by
  unfold removeKey
  split
  · rfl
  · next h =>
    refine (List.filter_eq_self.mpr ?_).symm
    intro kv hkv
    simp only [List.any_eq_true, not_exists, not_and] at h
    simpa using h kv hkv

/-- Folding `removeKey` over a key list filters out exactly those keys. -/
theorem foldl_removeKey_eq_filter (ks : List (List Nat)) (m : MetadataMap) :
    ks.foldl removeKey m = m.filter (fun kv => !(ks.contains kv.1)) := by
  induction ks generalizing m with
  | nil => simp
  | cons k ks ih =>
    rw [List.foldl_cons, ih, removeKey_eq_filter, List.filter_filter]
    refine List.filter_congr ?_
    intro kv _
    simp [List.contains_cons, Bool.beq_eq_decide_eq, Bool.and_comm]

/-- Claim C8: the key-removal edit is idempotent — removing `k` twice gives
the same map as removing it once — and removing a key absent from the map
is a no-op (the `if key in metadata` guard), never a failure. -/
theorem C8_removeKey_idempotent_and_total (m : MetadataMap) (k : List Nat) :
    removeKey (removeKey m k) k = removeKey m k ∧
    ((∀ kv ∈ m, kv.1 ≠ k) → removeKey m k = m) := by
  constructor
  · rw [removeKey_eq_filter m k, removeKey_eq_filter, List.filter_filter]
    refine List.filter_congr ?_
    intro kv _
    rw [Bool.and_self]
  · intro h
    rw [removeKey_eq_filter]
    refine List.filter_eq_self.mpr ?_
    intro kv hkv
    simpa using h kv hkv

/-- Witness for C8 on a one-entry map and an absent key. -/
theorem C8_removeKey_witness :
    removeKey (removeKey [([107], MetaValue.uint8 1)] [108]) [108] =
      removeKey [([107], MetaValue.uint8 1)] [108] ∧
    removeKey [([107], MetaValue.uint8 1)] [108] = [([107], MetaValue.uint8 1)] :=
  ⟨(C8_removeKey_idempotent_and_total [([107], MetaValue.uint8 1)] [108]).1,
   (C8_removeKey_idempotent_and_total [([107], MetaValue.uint8 1)] [108]).2
     (by decide)⟩

/-- Claim C9: `strip_telemetry` removes exactly the entries whose keys are
in its fixed six-element telemetry key list — the result is the filter of
the map keeping every pair whose key is not in the list, so surviving
entries are unchanged and keep their relative order. -/
theorem C9_strip_telemetry_is_filter (m : MetadataMap) :
    strip_telemetry m = m.filter (fun kv => !(telemetry_keys.contains kv.1)) ∧
    telemetry_keys.length = 6 :=
  ⟨foldl_removeKey_eq_filter telemetry_keys m, rfl⟩

/-- Lookup over the in-place-replacement branch of `dictInsert`. -/
theorem find?_map_replace (a : List Nat) (v : MetaValue) :
    ∀ (m : MetadataMap) (k : List Nat),
      (m.map (fun kv => if kv.1 == a then (a, v) else kv)).find?
          (fun kv => kv.1 == k) =
        if a == k then
          (if m.any (fun kv => kv.1 == a) then some (a, v) else none)
        else m.find? (fun kv => kv.1 == k) := by
  intro m
  induction m with
  | nil => intro k; by_cases h : a = k <;> simp [h]
  | cons kv m ih =>
    intro k
    show ((if kv.1 == a then (a, v) else kv) ::
        m.map (fun kv => if kv.1 == a then (a, v) else kv)).find?
          (fun kv => kv.1 == k) = _
    by_cases ha : kv.1 = a
    · rw [if_pos (show (kv.1 == a) = true by simp [ha])]
      by_cases hak : a = k
      · subst hak
        rw [List.find?_cons_of_pos _ (by simp)]
        rw [if_pos (by simp), if_pos (by simp [List.any_cons, ha])]
      · rw [List.find?_cons_of_neg _ (by simp [hak])]
        rw [ih k, if_neg (by simp [hak]), if_neg (by simp [hak])]
        rw [List.find?_cons_of_neg _ (by simp [ha, hak])]
    · rw [if_neg (by simp [ha])]
      by_cases hk : kv.1 = k
      · have hak : ¬ a = k := fun h => ha (hk.trans h.symm)
        rw [List.find?_cons_of_pos _ (by simp [hk])]
        rw [if_neg (by simp [hak])]
        rw [List.find?_cons_of_pos _ (by simp [hk])]
      · rw [List.find?_cons_of_neg _ (by simp [hk])]
        rw [ih k]
        by_cases hak : a = k
        · subst hak
          rw [List.any_cons, show (kv.1 == a) = false by simp [ha], Bool.false_or,
              if_pos (show (a == a) = true by simp),
              if_pos (show (a == a) = true by simp)]
        · simp [hak, List.find?_cons_of_neg, hk]

theorem lookup_dictInsert (m : MetadataMap) (a : List Nat) (v : MetaValue)
    (k : List Nat) :
    lookupKey (dictInsert m a v) k =
      if a == k then some v else lookupKey m k := by
  unfold dictInsert lookupKey
  split
  · next h =>
    rw [find?_map_replace a v m k]
    by_cases h2 : a = k
    · rw [if_pos (show (a == k) = true by simp [h2]),
          if_pos (show (a == k) = true by simp [h2]), if_pos h]
      rfl
    · rw [if_neg (show ¬ (a == k) = true by simp [h2]),
          if_neg (show ¬ (a == k) = true by simp [h2])]
  · next h =>
    rw [List.find?_append]
    by_cases h2 : a = k
    · have hm : m.find? (fun kv => kv.1 == k) = none := by
        rw [List.find?_eq_none]
        intro kv hkv
        intro hx
        refine h ?_
        rw [List.any_eq_true]
        exact ⟨kv, hkv, by simpa [h2] using hx⟩
      rw [hm, if_pos (show (a == k) = true by simp [h2])]
      simp [List.find?_cons, h2]
    · rw [if_neg (show ¬ (a == k) = true by simp [h2])]
      have h1 : List.find? (fun kv => kv.1 == k) [(a, v)] = none := by
        rw [List.find?]
        rw [show ((a, v).1 == k) = false by simp [h2]]
        rfl
      rw [h1]
      cases hf : m.find? (fun kv => kv.1 == k) <;> simp

theorem lookup_insertAll (prs : List (List Nat × MetaValue)) :
    ∀ (m : MetadataMap) (k : List Nat),
      lookupKey (insertAll m prs) k = (lastValue prs k).or (lookupKey m k) := by
  induction prs with
  | nil => intro m k; simp [insertAll, lastValue]
  | cons kv prs ih =>
    intro m k
    have hstep : insertAll m (kv :: prs) = insertAll (dictInsert m kv.1 kv.2) prs := by
      simp [insertAll]
    rw [hstep, ih, lookup_dictInsert]
    by_cases hc : kv.1 = k
    · cases hl : lastValue prs k <;>
        simp [lastValue, hl, hc, Option.or]
    · cases hl : lastValue prs k <;>
        simp [lastValue, hl, hc, Option.or]

theorem insertAll_cons (m : MetadataMap) (kv : List Nat × MetaValue)
    (prs : List (List Nat × MetaValue)) :
    insertAll m (kv :: prs) = insertAll (dictInsert m kv.1 kv.2) prs := by
  simp [insertAll]

theorem length_dictInsert (m : MetadataMap) (a : List Nat) (v : MetaValue) :
    (dictInsert m a v).length =
      if m.any (fun kv => kv.1 == a) then m.length else m.length + 1 := by
  unfold dictInsert
  split <;> simp_all

theorem length_insertAll_le (prs : List (List Nat × MetaValue)) :
    ∀ m : MetadataMap, (insertAll m prs).length ≤ m.length + prs.length := by
  induction prs with
  | nil => intro m; simp [insertAll]
  | cons p prs ih =>
    intro m
    rw [insertAll_cons]
    have h1 := ih (dictInsert m p.1 p.2)
    have h2 := length_dictInsert m p.1 p.2
    by_cases hc : m.any (fun kv => kv.1 == p.1) = true
    · rw [if_pos hc] at h2
      simp only [List.length_cons]
      omega
    · rw [if_neg hc] at h2
      simp only [List.length_cons]
      omega

theorem any_dictInsert_preserved (m : MetadataMap) (a x : List Nat) (v : MetaValue)
    (h : m.any (fun kv => kv.1 == x) = true) :
    (dictInsert m a v).any (fun kv => kv.1 == x) = true := by
  unfold dictInsert
  split
  · rw [List.any_eq_true] at h ⊢
    obtain ⟨kv, hmem, hkv⟩ := h
    refine ⟨if kv.1 == a then (a, v) else kv, List.mem_map_of_mem _ hmem, ?_⟩
    by_cases hka : kv.1 = a
    · rw [if_pos (show (kv.1 == a) = true by simp [hka])]
      simpa [hka] using hkv
    · rw [if_neg (show ¬ (kv.1 == a) = true by simp [hka])]
      exact hkv
  · rw [List.any_append, h, Bool.true_or]

theorem any_dictInsert_self (m : MetadataMap) (a : List Nat) (v : MetaValue) :
    (dictInsert m a v).any (fun kv => kv.1 == a) = true := by
  unfold dictInsert
  split
  · next h =>
    rw [List.any_eq_true] at h ⊢
    obtain ⟨kv, hmem, hkv⟩ := h
    refine ⟨if kv.1 == a then (a, v) else kv, List.mem_map_of_mem _ hmem, ?_⟩
    rw [if_pos hkv]
    simp
  · rw [List.any_append]
    simp [List.any_cons]

theorem insertAll_repeated_key_lt (prs : List (List Nat × MetaValue)) :
    ∀ m : MetadataMap, (∃ kv ∈ prs, m.any (fun e => e.1 == kv.1) = true) →
      (insertAll m prs).length < m.length + prs.length := by
  induction prs with
  | nil => intro m h; simp at h
  | cons p prs ih =>
    intro m h
    obtain ⟨kv, hmem, hany⟩ := h
    rw [insertAll_cons]
    have hle := length_insertAll_le prs (dictInsert m p.1 p.2)
    have hlen := length_dictInsert m p.1 p.2
    rcases List.mem_cons.mp hmem with heq | hmem'
    · subst heq
      rw [if_pos hany] at hlen
      simp only [List.length_cons]
      omega
    · have hpres := any_dictInsert_preserved m p.1 kv.1 p.2 hany
      have := ih (dictInsert m p.1 p.2) ⟨kv, hmem', hpres⟩
      simp only [List.length_cons]
      by_cases hc : m.any (fun e => e.1 == p.1) = true
      · rw [if_pos hc] at hlen; omega
      · rw [if_neg hc] at hlen; omega

theorem insertAll_dup_keys_lt (prs : List (List Nat × MetaValue)) :
    ∀ m : MetadataMap, ¬ (prs.map (fun kv => kv.1)).Nodup →
      (insertAll m prs).length < m.length + prs.length := by
  induction prs with
  | nil => intro m h; simp at h
  | cons p prs ih =>
    intro m h
    rw [List.map_cons, List.nodup_cons] at h
    rw [insertAll_cons]
    have hlen := length_dictInsert m p.1 p.2
    have hself := any_dictInsert_self m p.1 p.2
    by_cases hmem : p.1 ∈ prs.map (fun kv => kv.1)
    · obtain ⟨kv, hkv, hfst⟩ := List.mem_map.mp hmem
      have := insertAll_repeated_key_lt prs (dictInsert m p.1 p.2)
        ⟨kv, hkv, by rw [hfst]; exact hself⟩
      simp only [List.length_cons]
      by_cases hc : m.any (fun e => e.1 == p.1) = true
      · rw [if_pos hc] at hlen; omega
      · rw [if_neg hc] at hlen; omega
    · have hnod : ¬ (prs.map (fun kv => kv.1)).Nodup := fun hn => h ⟨hmem, hn⟩
      have := ih (dictInsert m p.1 p.2) hnod
      simp only [List.length_cons]
      by_cases hc : m.any (fun e => e.1 == p.1) = true
      · rw [if_pos hc] at hlen; omega
      · rw [if_neg hc] at hlen; omega

theorem read_metadata_from_eq_pairs (fuel : Nat) :
    ∀ (count : Nat) (bs : List Nat) (pos : Nat) (m : MetadataMap)
      (prs : List (List Nat × MetaValue)) (p' : Nat),
      read_metadata_pairs fuel count bs pos = .ok (prs, p') →
      read_metadata_from fuel count m bs pos = .ok (insertAll m prs, p') := by
  intro count
  induction count with
  | zero =>
    intro bs pos m prs p' h
    simp only [read_metadata_pairs] at h
    obtain ⟨h1, h2⟩ := by simpa using h
    subst h1; subst h2
    simp [read_metadata_from, insertAll]
  | succ count ih =>
    intro bs pos m prs p' h
    simp only [read_metadata_pairs] at h
    split at h
    · simp at h
    next key_len p1 heq1 =>
    split at h
    · simp at h
    next key p2 heq2 =>
    split at h
    · simp at h
    next value_type p3 heq3 =>
    split at h
    · simp at h
    next value p4 heq4 =>
    split at h
    · simp at h
    next rest p5 heq5 =>
    obtain ⟨hprs, hp⟩ := by simpa using h
    subst hprs; subst hp
    simp only [read_metadata_from, heq1, heq2, heq3, heq4]
    rw [insertAll_cons]
    exact ih bs p4 (dictInsert m key value) rest p5 heq5

theorem read_metadata_pairs_length (fuel : Nat) :
    ∀ (count : Nat) (bs : List Nat) (pos : Nat)
      (prs : List (List Nat × MetaValue)) (p' : Nat),
      read_metadata_pairs fuel count bs pos = .ok (prs, p') →
      prs.length = count := by
  intro count
  induction count with
  | zero =>
    intro bs pos prs p' h
    simp only [read_metadata_pairs] at h
    obtain ⟨h1, _⟩ := by simpa using h
    subst h1; rfl
  | succ count ih =>
    intro bs pos prs p' h
    simp only [read_metadata_pairs] at h
    split at h
    · simp at h
    next key_len p1 heq1 =>
    split at h
    · simp at h
    next key p2 heq2 =>
    split at h
    · simp at h
    next value_type p3 heq3 =>
    split at h
    · simp at h
    next value p4 heq4 =>
    split at h
    · simp at h
    next rest p5 heq5 =>
    obtain ⟨hprs, _⟩ := by simpa using h
    subst hprs
    simp [ih bs p4 rest p5 heq5]

/-- Claim C10: duplicate metadata keys do not make the reader fail: the
dict receives each pair in order with later entries overwriting earlier
ones (`metadata[key] = value`), so the key holds the last-read value; the
reported `metadata_kv_count` stays the file's declared header count, which
on the concrete duplicate-key file (2) exceeds the number of distinct keys
in the returned map (1). -/
theorem C10_duplicate_keys_last_wins :
    (∀ fuel count bs pos prs p',
        read_metadata_pairs fuel count bs pos = .ok (prs, p') →
        read_metadata fuel count bs pos = .ok (insertAll [] prs, p') ∧
        prs.length = count ∧
        (∀ k, lookupKey (insertAll [] prs) k = lastValue prs k) ∧
        (¬ (prs.map (fun kv => kv.1)).Nodup → (insertAll [] prs).length < count)) ∧
    analyze_gguf dupKeyBytes = .ok (dupKeyDoc, 52) ∧
    dupKeyDoc.metadata_kv_count = 2 ∧
    dupKeyDoc.metadata = [([107], .uint8 2)] ∧
    lookupKey dupKeyDoc.metadata [107] = some (.uint8 2) := by
  refine ⟨?_, rfl, rfl, rfl, rfl⟩
  intro fuel count bs pos prs p' h
  have hlen := read_metadata_pairs_length fuel count bs pos prs p' h
  refine ⟨read_metadata_from_eq_pairs fuel count bs pos [] prs p' h, hlen, ?_, ?_⟩
  · intro k
    rw [lookup_insertAll prs [] k]
    simp [lookupKey, Option.or_none]
  · intro hnd
    have := insertAll_dup_keys_lt prs [] hnd
    simpa [hlen] using this

/-- Witness for C10 on the concrete duplicate-key file. -/
theorem C10_duplicate_keys_witness :
    read_metadata 54 2 dupKeyBytes 24 = .ok ([([107], MetaValue.uint8 2)], 52) ∧
    ([([107], MetaValue.uint8 2)] : MetadataMap).length < 2 := by
  have h := C10_duplicate_keys_last_wins.1 54 2 dupKeyBytes 24
    [([107], .uint8 1), ([107], .uint8 2)] 52 rfl
  exact ⟨h.1, h.2.2.2 (by decide)⟩

/-! ## Prefix-invariance of the reader

The reader touches only the bytes it consumes.  The lemmas below make
this precise: every successful sub-read ends at a position bounded by the
input length, and — provided no short string read happened, which is
forced whenever the final position is strictly inside the input — the
same read succeeds identically on any byte stream agreeing on the
consumed prefix.  The fuel side conditions are discharged by the
observation that a value's recursion depth never exceeds its byte span. -/

/-- Prefix agreement restricts to shorter prefixes. -/
theorem take_agree_mono {bs bs' : List Nat} {a b : Nat} (hab : a ≤ b)
    (h : bs.take b = bs'.take b) : bs.take a = bs'.take a := by
  have h2 : (bs.take b).take a = (bs'.take b).take a := by rw [h]
  simpa [List.take_take, Nat.min_eq_left hab] using h2

theorem fread_take (bs : List Nat) (pos n : Nat) :
    fread bs pos n = ((bs.take (pos + n)).drop pos).take n := by
  rw [List.drop_take]
  unfold fread
  rw [List.take_take]
  congr 1
  omega

theorem readUInt_inv (w : Nat) (hw : 0 < w) (bs : List Nat) (pos v p' : Nat)
    (h : readUInt w bs pos = .ok (v, p')) :
    p' = pos + w ∧ pos + w ≤ bs.length ∧
    ∀ bs' : List Nat, bs.take p' = bs'.take p' →
      readUInt w bs' pos = .ok (v, p') := by
  simp only [readUInt] at h
  split at h
  · next hlen =>
    obtain ⟨hv, hp⟩ := by simpa using h
    have hlen2 : w ≤ bs.length - pos ∧ pos ≤ bs.length := by
      unfold fread at hlen
      rw [List.length_take, List.length_drop] at hlen
      omega
    refine ⟨hp.symm, by omega, ?_⟩
    intro bs' hag
    have hfr : fread bs' pos w = fread bs pos w := by
      rw [fread_take, fread_take bs]
      rw [show pos + w = p' by omega, hag]
    simp only [readUInt, hfr]
    rw [if_pos hlen]
    rw [hv, hp]
  · simp at h

theorem readSInt_inv (w : Nat) (hw : 0 < w) (bs : List Nat) (pos : Nat)
    (x : Int) (p' : Nat) (h : readSInt w bs pos = .ok (x, p')) :
    p' = pos + w ∧ pos + w ≤ bs.length ∧
    ∀ bs' : List Nat, bs.take p' = bs'.take p' →
      readSInt w bs' pos = .ok (x, p') := by
  unfold readSInt at h
  split at h
  · simp at h
  · next raw p heq =>
    obtain ⟨hx, hp⟩ := by simpa using h
    obtain ⟨h1, h2, h3⟩ := readUInt_inv w hw bs pos raw p heq
    refine ⟨by omega, by omega, ?_⟩
    intro bs' hag
    unfold readSInt
    rw [h3 bs' (by rw [← hp] at hag; exact hag)]
    simp [hx, hp]

theorem readPyStr_inv (bs : List Nat) (pos len : Nat) (s : List Nat) (p' : Nat)
    (hpos : pos ≤ bs.length) (h : readPyStr bs pos len = .ok (s, p')) :
    pos ≤ p' ∧ p' ≤ bs.length ∧
    (p' < bs.length →
      p' = pos + len ∧
      ∀ bs' : List Nat, bs.take p' = bs'.take p' →
        readPyStr bs' pos len = .ok (s, p')) := by
  have hblen : (fread bs pos len).length = min len (bs.length - pos) := by
    unfold fread
    rw [List.length_take, List.length_drop]
  simp only [readPyStr] at h
  split at h
  · next hval =>
    obtain ⟨hs, hp⟩ := by simpa using h
    refine ⟨by omega, by omega, ?_⟩
    intro hlt
    have hexact : min len (bs.length - pos) = len := by omega
    have hpe : p' = pos + len := by omega
    refine ⟨hpe, ?_⟩
    intro bs' hag
    have hfr : fread bs' pos len = fread bs pos len := by
      rw [fread_take, fread_take bs]
      rw [show pos + len = p' by omega, hag]
    simp only [readPyStr, hfr]
    rw [if_pos hval]
    rw [← hp, hs]
  · simp at h

theorem iterRead_bounds {α : Type} (rd : Nat → Except Err (α × Nat)) (L : Nat)
    (hrd : ∀ pos v p', pos ≤ L → rd pos = .ok (v, p') → pos ≤ p' ∧ p' ≤ L) :
    ∀ (count pos : Nat) (vs : List α) (p' : Nat), pos ≤ L →
      iterRead rd count pos = .ok (vs, p') → pos ≤ p' ∧ p' ≤ L := by
  intro count
  induction count with
  | zero =>
    intro pos vs p' hpos h
    simp only [iterRead] at h
    obtain ⟨_, hp⟩ := by simpa using h
    omega
  | succ count ih =>
    intro pos vs p' hpos h
    simp only [iterRead] at h
    split at h
    · simp at h
    next v p1 heq1 =>
    split at h
    · simp at h
    next vs2 p2 heq2 =>
    obtain ⟨_, hp⟩ := by simpa using h
    obtain ⟨ha, hb⟩ := hrd pos v p1 hpos heq1
    obtain ⟨hc, hd⟩ := ih p1 vs2 p2 hb heq2
    omega

theorem iterRead_transfer {α : Type} (rd rd' : Nat → Except Err (α × Nat))
    (L fb P : Nat)
    (hrd : ∀ pos v p', pos ≤ L → rd pos = .ok (v, p') →
      pos ≤ p' ∧ p' ≤ L ∧
      (p' < L → p' - pos ≤ fb → p' ≤ P → rd' pos = .ok (v, p'))) :
    ∀ (count pos : Nat) (vs : List α) (p' : Nat), pos ≤ L →
      iterRead rd count pos = .ok (vs, p') →
      p' < L → p' - pos ≤ fb → p' ≤ P →
      iterRead rd' count pos = .ok (vs, p') := by
  intro count
  induction count with
  | zero =>
    intro pos vs p' hpos h hlt hfb hP
    simp only [iterRead] at h ⊢
    exact h
  | succ count ih =>
    intro pos vs p' hpos h hlt hfb hP
    simp only [iterRead] at h
    split at h
    · simp at h
    next v p1 heq1 =>
    split at h
    · simp at h
    next vs2 p2 heq2 =>
    obtain ⟨hvs, hp⟩ := by simpa using h
    obtain ⟨ha, hb, hc⟩ := hrd pos v p1 hpos heq1
    have hbnd := iterRead_bounds rd L (fun q w q' hq hok => ⟨(hrd q w q' hq hok).1, (hrd q w q' hq hok).2.1⟩) count p1 vs2 p2 hb heq2
    have h1 : rd' pos = .ok (v, p1) := hc (by omega) (by omega) (by omega)
    have h2 : iterRead rd' count p1 = .ok (vs2, p2) :=
      ih p1 vs2 p2 hb heq2 (by omega) (by omega) (by omega)
    simp only [iterRead, h1, h2]
    rw [hvs, hp]

theorem read_metadata_value_inv :
    ∀ (fuel value_type : Nat) (bs : List Nat) (pos : Nat) (v : MetaValue)
      (p' : Nat),
      pos ≤ bs.length →
      read_metadata_value fuel value_type bs pos = .ok (v, p') →
      pos < p' ∧ p' ≤ bs.length ∧
      (p' < bs.length → ∀ (f' : Nat) (bs' : List Nat), p' - pos ≤ f' →
        bs.take p' = bs'.take p' →
        read_metadata_value f' value_type bs' pos = .ok (v, p')) := by
  intro fuel
  induction fuel with
  | zero =>
    intro vt bs pos v p' hpos h
    simp [read_metadata_value] at h
  | succ fuel ih =>
    intro vt bs pos v p' hpos h
    simp only [read_metadata_value] at h
    rcases vt with _|_|_|_|_|_|_|_|_|_|vt
    · -- value_type = 0
      rw [if_pos rfl] at h
      split at h
      · simp at h
      next x p heq =>
      obtain ⟨hv, hp⟩ := by simpa using h
      subst hv
      subst hp
      obtain ⟨e1, e2, e3⟩ := readUInt_inv 1 (by omega) bs pos x p heq
      refine ⟨by omega, by omega, ?_⟩
      intro hlt f' bs' hf hag
      obtain ⟨f2, rfl⟩ : ∃ f2, f' = f2 + 1 := ⟨f' - 1, by omega⟩
      simp only [read_metadata_value]
      rw [if_pos (by trivial)]
      rw [e3 bs' hag]
    · -- value_type = 1
      rw [if_neg (by omega)] at h
      rw [if_pos rfl] at h
      split at h
      · simp at h
      next x p heq =>
      obtain ⟨hv, hp⟩ := by simpa using h
      subst hv
      subst hp
      obtain ⟨e1, e2, e3⟩ := readSInt_inv 1 (by omega) bs pos x p heq
      refine ⟨by omega, by omega, ?_⟩
      intro hlt f' bs' hf hag
      obtain ⟨f2, rfl⟩ : ∃ f2, f' = f2 + 1 := ⟨f' - 1, by omega⟩
      simp only [read_metadata_value]
      rw [if_neg (by omega)]
      rw [if_pos (by trivial)]
      rw [e3 bs' hag]
    · -- value_type = 2
      rw [if_neg (by omega)] at h
      rw [if_neg (by omega)] at h
      rw [if_pos rfl] at h
      split at h
      · simp at h
      next x p heq =>
      obtain ⟨hv, hp⟩ := by simpa using h
      subst hv
      subst hp
      obtain ⟨e1, e2, e3⟩ := readUInt_inv 2 (by omega) bs pos x p heq
      refine ⟨by omega, by omega, ?_⟩
      intro hlt f' bs' hf hag
      obtain ⟨f2, rfl⟩ : ∃ f2, f' = f2 + 1 := ⟨f' - 1, by omega⟩
      simp only [read_metadata_value]
      rw [if_neg (by omega)]
      rw [if_neg (by omega)]
      rw [if_pos (by trivial)]
      rw [e3 bs' hag]
    · -- value_type = 3
      rw [if_neg (by omega)] at h
      rw [if_neg (by omega)] at h
      rw [if_neg (by omega)] at h
      rw [if_pos rfl] at h
      split at h
      · simp at h
      next x p heq =>
      obtain ⟨hv, hp⟩ := by simpa using h
      subst hv
      subst hp
      obtain ⟨e1, e2, e3⟩ := readSInt_inv 2 (by omega) bs pos x p heq
      refine ⟨by omega, by omega, ?_⟩
      intro hlt f' bs' hf hag
      obtain ⟨f2, rfl⟩ : ∃ f2, f' = f2 + 1 := ⟨f' - 1, by omega⟩
      simp only [read_metadata_value]
      rw [if_neg (by omega)]
      rw [if_neg (by omega)]
      rw [if_neg (by omega)]
      rw [if_pos (by trivial)]
      rw [e3 bs' hag]
    · -- value_type = 4
      rw [if_neg (by omega)] at h
      rw [if_neg (by omega)] at h
      rw [if_neg (by omega)] at h
      rw [if_neg (by omega)] at h
      rw [if_pos rfl] at h
      split at h
      · simp at h
      next x p heq =>
      obtain ⟨hv, hp⟩ := by simpa using h
      subst hv
      subst hp
      obtain ⟨e1, e2, e3⟩ := readUInt_inv 4 (by omega) bs pos x p heq
      refine ⟨by omega, by omega, ?_⟩
      intro hlt f' bs' hf hag
      obtain ⟨f2, rfl⟩ : ∃ f2, f' = f2 + 1 := ⟨f' - 1, by omega⟩
      simp only [read_metadata_value]
      rw [if_neg (by omega)]
      rw [if_neg (by omega)]
      rw [if_neg (by omega)]
      rw [if_neg (by omega)]
      rw [if_pos (by trivial)]
      rw [e3 bs' hag]
    · -- value_type = 5
      rw [if_neg (by omega)] at h
      rw [if_neg (by omega)] at h
      rw [if_neg (by omega)] at h
      rw [if_neg (by omega)] at h
      rw [if_neg (by omega)] at h
      rw [if_pos rfl] at h
      split at h
      · simp at h
      next x p heq =>
      obtain ⟨hv, hp⟩ := by simpa using h
      subst hv
      subst hp
      obtain ⟨e1, e2, e3⟩ := readSInt_inv 4 (by omega) bs pos x p heq
      refine ⟨by omega, by omega, ?_⟩
      intro hlt f' bs' hf hag
      obtain ⟨f2, rfl⟩ : ∃ f2, f' = f2 + 1 := ⟨f' - 1, by omega⟩
      simp only [read_metadata_value]
      rw [if_neg (by omega)]
      rw [if_neg (by omega)]
      rw [if_neg (by omega)]
      rw [if_neg (by omega)]
      rw [if_neg (by omega)]
      rw [if_pos (by trivial)]
      rw [e3 bs' hag]
    · -- value_type = 6
      rw [if_neg (by omega)] at h
      rw [if_neg (by omega)] at h
      rw [if_neg (by omega)] at h
      rw [if_neg (by omega)] at h
      rw [if_neg (by omega)] at h
      rw [if_neg (by omega)] at h
      rw [if_pos rfl] at h
      split at h
      · simp at h
      next x p heq =>
      obtain ⟨hv, hp⟩ := by simpa using h
      subst hv
      subst hp
      obtain ⟨e1, e2, e3⟩ := readUInt_inv 4 (by omega) bs pos x p heq
      refine ⟨by omega, by omega, ?_⟩
      intro hlt f' bs' hf hag
      obtain ⟨f2, rfl⟩ : ∃ f2, f' = f2 + 1 := ⟨f' - 1, by omega⟩
      simp only [read_metadata_value]
      rw [if_neg (by omega)]
      rw [if_neg (by omega)]
      rw [if_neg (by omega)]
      rw [if_neg (by omega)]
      rw [if_neg (by omega)]
      rw [if_neg (by omega)]
      rw [if_pos (by trivial)]
      rw [e3 bs' hag]
    · -- value_type = 7
      rw [if_neg (by omega)] at h
      rw [if_neg (by omega)] at h
      rw [if_neg (by omega)] at h
      rw [if_neg (by omega)] at h
      rw [if_neg (by omega)] at h
      rw [if_neg (by omega)] at h
      rw [if_neg (by omega)] at h
      rw [if_pos rfl] at h
      split at h
      · simp at h
      next x p heq =>
      obtain ⟨hv, hp⟩ := by simpa using h
      subst hv
      subst hp
      obtain ⟨e1, e2, e3⟩ := readUInt_inv 1 (by omega) bs pos x p heq
      refine ⟨by omega, by omega, ?_⟩
      intro hlt f' bs' hf hag
      obtain ⟨f2, rfl⟩ : ∃ f2, f' = f2 + 1 := ⟨f' - 1, by omega⟩
      simp only [read_metadata_value]
      rw [if_neg (by omega)]
      rw [if_neg (by omega)]
      rw [if_neg (by omega)]
      rw [if_neg (by omega)]
      rw [if_neg (by omega)]
      rw [if_neg (by omega)]
      rw [if_neg (by omega)]
      rw [if_pos (by trivial)]
      rw [e3 bs' hag]
    · -- value_type = 8: string
      rw [if_neg (by omega)] at h
      rw [if_neg (by omega)] at h
      rw [if_neg (by omega)] at h
      rw [if_neg (by omega)] at h
      rw [if_neg (by omega)] at h
      rw [if_neg (by omega)] at h
      rw [if_neg (by omega)] at h
      rw [if_neg (by omega)] at h
      rw [if_pos rfl] at h
      split at h
      · simp at h
      next strLen p1 heq1 =>
      split at h
      · simp at h
      next s p2 heq2 =>
      obtain ⟨hv, hp⟩ := by simpa using h
      subst hv
      subst hp
      obtain ⟨e1, e2, e3⟩ := readUInt_inv 8 (by omega) bs pos strLen p1 heq1
      obtain ⟨g1, g2, g3⟩ := readPyStr_inv bs p1 strLen s p2 (by omega) heq2
      refine ⟨by omega, by omega, ?_⟩
      intro hlt f' bs' hf hag
      obtain ⟨hpe, t2⟩ := g3 (by omega)
      obtain ⟨f2, rfl⟩ : ∃ f2, f' = f2 + 1 := ⟨f' - 1, by omega⟩
      simp only [read_metadata_value]
      rw [if_neg (by omega)]
      rw [if_neg (by omega)]
      rw [if_neg (by omega)]
      rw [if_neg (by omega)]
      rw [if_neg (by omega)]
      rw [if_neg (by omega)]
      rw [if_neg (by omega)]
      rw [if_neg (by omega)]
      rw [if_pos (by trivial)]
      rw [e3 bs' (take_agree_mono (by omega) hag)]
      simp only [t2 bs' hag]
    · -- value_type = 9: array
      rw [if_neg (by omega)] at h
      rw [if_neg (by omega)] at h
      rw [if_neg (by omega)] at h
      rw [if_neg (by omega)] at h
      rw [if_neg (by omega)] at h
      rw [if_neg (by omega)] at h
      rw [if_neg (by omega)] at h
      rw [if_neg (by omega)] at h
      rw [if_neg (by omega)] at h
      rw [if_pos rfl] at h
      split at h
      · simp at h
      next aty p1 heq1 =>
      split at h
      · simp at h
      next alen p2 heq2 =>
      split at h
      · simp at h
      next vs p3 heq3 =>
      obtain ⟨hv, hp⟩ := by simpa using h
      subst hv
      subst hp
      obtain ⟨e1, e2, e3⟩ := readUInt_inv 4 (by omega) bs pos aty p1 heq1
      obtain ⟨d1, d2, d3⟩ := readUInt_inv 8 (by omega) bs p1 alen p2 heq2
      have hb := iterRead_bounds (fun q => read_metadata_value fuel aty bs q)
        bs.length
        (fun q w q' hq hok =>
          ⟨Nat.le_of_lt (ih aty bs q w q' hq hok).1, (ih aty bs q w q' hq hok).2.1⟩)
        alen p2 vs p3 (by omega) heq3
      refine ⟨by omega, by omega, ?_⟩
      intro hlt f' bs' hf hag
      obtain ⟨f2, rfl⟩ : ∃ f2, f' = f2 + 1 := ⟨f' - 1, by omega⟩
      have htr := iterRead_transfer (fun q => read_metadata_value fuel aty bs q)
        (fun q => read_metadata_value f2 aty bs' q) bs.length f2 p3
        (fun q w q' hq hok => by
          obtain ⟨a1, a2, a3⟩ := ih aty bs q w q' hq hok
          exact ⟨Nat.le_of_lt a1, a2, fun hq1 hq2 hq3 =>
            a3 hq1 f2 bs' hq2 (take_agree_mono hq3 hag)⟩)
        alen p2 vs p3 (by omega) heq3 hlt (by omega) (by omega)
      simp only [read_metadata_value]
      rw [if_neg (by omega)]
      rw [if_neg (by omega)]
      rw [if_neg (by omega)]
      rw [if_neg (by omega)]
      rw [if_neg (by omega)]
      rw [if_neg (by omega)]
      rw [if_neg (by omega)]
      rw [if_neg (by omega)]
      rw [if_neg (by omega)]
      rw [if_pos (by trivial)]
      rw [e3 bs' (take_agree_mono (by omega) hag)]
      simp only [d3 bs' (take_agree_mono (by omega) hag)]
      simp only [htr]
    · -- value_type ≥ 10: unknown tag, h is a contradiction
      rw [if_neg (by omega)] at h
      rw [if_neg (by omega)] at h
      rw [if_neg (by omega)] at h
      rw [if_neg (by omega)] at h
      rw [if_neg (by omega)] at h
      rw [if_neg (by omega)] at h
      rw [if_neg (by omega)] at h
      rw [if_neg (by omega)] at h
      rw [if_neg (by omega)] at h
      rw [if_neg (by omega)] at h
      simp at h

theorem read_metadata_from_inv :
    ∀ (count fuel : Nat) (m : MetadataMap) (bs : List Nat) (pos : Nat)
      (r : MetadataMap) (p' : Nat),
      pos ≤ bs.length →
      read_metadata_from fuel count m bs pos = .ok (r, p') →
      pos ≤ p' ∧ p' ≤ bs.length ∧
      (p' < bs.length → ∀ (f' : Nat) (bs' : List Nat), p' ≤ f' →
        bs.take p' = bs'.take p' →
        read_metadata_from f' count m bs' pos = .ok (r, p')) := by
  intro count
  induction count with
  | zero =>
    intro fuel m bs pos r p' hpos h
    simp only [read_metadata_from] at h
    obtain ⟨hr, hp⟩ := by simpa using h
    subst hr
    subst hp
    exact ⟨Nat.le_refl _, hpos, fun _ f' bs' _ _ => by simp [read_metadata_from]⟩
  | succ count ih =>
    intro fuel m bs pos r p' hpos h
    simp only [read_metadata_from] at h
    split at h
    · simp at h
    next key_len p1 heq1 =>
    split at h
    · simp at h
    next key p2 heq2 =>
    split at h
    · simp at h
    next value_type p3 heq3 =>
    split at h
    · simp at h
    next value p4 heq4 =>
    obtain ⟨e1, e2, e3⟩ := readUInt_inv 8 (by omega) bs pos key_len p1 heq1
    obtain ⟨g1, g2, g3⟩ := readPyStr_inv bs p1 key_len key p2 (by omega) heq2
    obtain ⟨c1, c2, c3⟩ := readUInt_inv 4 (by omega) bs p2 value_type p3 heq3
    obtain ⟨v1, v2, v3⟩ :=
      read_metadata_value_inv fuel value_type bs p3 value p4 (by omega) heq4
    obtain ⟨r1, r2, r3⟩ := ih fuel (dictInsert m key value) bs p4 r p' (by omega) h
    refine ⟨by omega, r2, ?_⟩
    intro hlt f' bs' hf hag
    obtain ⟨hpe, t2⟩ := g3 (by omega)
    simp only [read_metadata_from]
    rw [e3 bs' (take_agree_mono (by omega) hag)]
    simp only [t2 bs' (take_agree_mono (by omega) hag)]
    simp only [c3 bs' (take_agree_mono (by omega) hag)]
    simp only [v3 (by omega) f' bs' (by omega) (take_agree_mono (by omega) hag)]
    exact r3 hlt f' bs' hf hag

theorem read_tensor_info_inv :
    ∀ (count : Nat) (bs : List Nat) (pos : Nat) (ts : List TensorInfo) (p' : Nat),
      pos ≤ bs.length →
      read_tensor_info count bs pos = .ok (ts, p') →
      pos ≤ p' ∧ p' ≤ bs.length ∧
      (p' < bs.length → ∀ bs' : List Nat, bs.take p' = bs'.take p' →
        read_tensor_info count bs' pos = .ok (ts, p')) := by
  intro count
  induction count with
  | zero =>
    intro bs pos ts p' hpos h
    simp only [read_tensor_info] at h
    obtain ⟨ht, hp⟩ := by simpa using h
    subst ht
    subst hp
    exact ⟨Nat.le_refl _, hpos, fun _ bs' _ => by simp [read_tensor_info]⟩
  | succ count ih =>
    intro bs pos ts p' hpos h
    simp only [read_tensor_info] at h
    split at h
    · simp at h
    next name_len p1 heq1 =>
    split at h
    · simp at h
    next name p2 heq2 =>
    split at h
    · simp at h
    next n_dims p3 heq3 =>
    split at h
    · simp at h
    next dims p4 heq4 =>
    split at h
    · simp at h
    next ttype p5 heq5 =>
    split at h
    · simp at h
    next toff p6 heq6 =>
    split at h
    · simp at h
    next rest p7 heq7 =>
    obtain ⟨ht, hp⟩ := by simpa using h
    subst ht
    subst hp
    obtain ⟨e1, e2, e3⟩ := readUInt_inv 8 (by omega) bs pos name_len p1 heq1
    obtain ⟨g1, g2, g3⟩ := readPyStr_inv bs p1 name_len name p2 (by omega) heq2
    obtain ⟨c1, c2, c3⟩ := readUInt_inv 4 (by omega) bs p2 n_dims p3 heq3
    have hdims := iterRead_bounds (fun q => readUInt 8 bs q) bs.length
      (fun q w q' hq hok => by
        obtain ⟨a1, a2, _⟩ := readUInt_inv 8 (by omega) bs q w q' hok
        exact ⟨by omega, by omega⟩)
      n_dims p3 dims p4 (by omega) heq4
    obtain ⟨d1, d2, d3⟩ := readUInt_inv 4 (by omega) bs p4 ttype p5 heq5
    obtain ⟨f1, f2, f3⟩ := readUInt_inv 8 (by omega) bs p5 toff p6 heq6
    obtain ⟨r1, r2, r3⟩ := ih bs p6 rest p7 (by omega) heq7
    refine ⟨by omega, r2, ?_⟩
    intro hlt bs' hag
    obtain ⟨hpe, t2⟩ := g3 (by omega)
    have htr := iterRead_transfer (fun q => readUInt 8 bs q)
      (fun q => readUInt 8 bs' q) bs.length bs.length p4
      (fun q w q' hq hok => by
        obtain ⟨a1, a2, a3⟩ := readUInt_inv 8 (by omega) bs q w q' hok
        exact ⟨by omega, by omega, fun hq1 hq2 hq3 =>
          a3 bs' (take_agree_mono (by omega) hag)⟩)
      n_dims p3 dims p4 (by omega) heq4 (by omega) (by omega) (by omega)
    simp only [read_tensor_info]
    rw [e3 bs' (take_agree_mono (by omega) hag)]
    simp only [t2 bs' (take_agree_mono (by omega) hag)]
    simp only [c3 bs' (take_agree_mono (by omega) hag)]
    simp only [htr]
    simp only [d3 bs' (take_agree_mono (by omega) hag)]
    simp only [f3 bs' (take_agree_mono (by omega) hag)]
    simp only [r3 (by omega) bs' hag]

theorem analyze_gguf_agree (bs : List Nat) (doc : GGUFDoc) (S : Nat)
    (h : analyze_gguf bs = .ok (doc, S)) (hS : S < bs.length) :
    ∀ bs' : List Nat, bs.take S = bs'.take S → analyze_gguf bs' = .ok (doc, S) := by
  intro bs' hag
  simp only [analyze_gguf] at h
  split at h
  case isFalse => simp at h
  case isTrue hm =>
  split at h
  · simp at h
  next version p1 heq1 =>
  split at h
  · simp at h
  next tc p2 heq2 =>
  split at h
  · simp at h
  next kv p3 heq3 =>
  split at h
  · simp at h
  next md p4 heq4 =>
  split at h
  · simp at h
  next ts p5 heq5 =>
  obtain ⟨hd, hp⟩ := by simpa using h
  subst hd
  subst hp
  obtain ⟨e1, e2, e3⟩ := readUInt_inv 4 (by omega) bs 4 version p1 heq1
  obtain ⟨g1, g2, g3⟩ := readUInt_inv 8 (by omega) bs p1 tc p2 heq2
  obtain ⟨c1, c2, c3⟩ := readUInt_inv 8 (by omega) bs p2 kv p3 heq3
  obtain ⟨m1, m2, m3⟩ := read_metadata_from_inv kv (bs.length + 2) [] bs p3 md p4
    (by omega) heq4
  obtain ⟨t1, t2, t3⟩ := read_tensor_info_inv tc bs p4 ts p5 (by omega) heq5
  have hlen' : p5 ≤ bs'.length := by
    have : (bs.take p5).length = (bs'.take p5).length := by rw [hag]
    rw [List.length_take, List.length_take] at this
    omega
  simp only [analyze_gguf]
  have hmagic : fread bs' 0 4 = MAGIC := by
    rw [← hm]
    rw [fread_take, fread_take bs]
    have h4 : bs.take 4 = bs'.take 4 := take_agree_mono (by omega) hag
    rw [show (0 : Nat) + 4 = 4 by rfl, h4]
  rw [if_pos hmagic]
  rw [e3 bs' (take_agree_mono (by omega) hag)]
  simp only [g3 bs' (take_agree_mono (by omega) hag)]
  simp only [c3 bs' (take_agree_mono (by omega) hag)]
  have hmd : read_metadata_from (bs'.length + 2) kv [] bs' p3 = .ok (md, p4) :=
    m3 (by omega) (bs'.length + 2) bs' (by omega) (take_agree_mono (by omega) hag)
  simp only [read_metadata]
  simp only [hmd]
  simp only [t3 (by omega) bs' hag]

/-- Claim C7: the reader's result depends only on the bytes up to the end
of the tensor-descriptor table.  If parsing ends at cursor position `S`
with at least one byte after it (the padding/payload region), then any
byte stream agreeing with the file on its first `S` bytes — in particular
the same structural section with a completely different tensor payload —
parses to the identical document with the identical end position; the
reader never reads a payload byte. -/
theorem C7_reader_reads_only_structural_bytes (bs : List Nat) (doc : GGUFDoc)
    (S : Nat) (h : analyze_gguf bs = .ok (doc, S)) (hS : S < bs.length)
    (bs' : List Nat) (hag : bs.take S = bs'.take S) :
    analyze_gguf bs' = .ok (doc, S) :=
  analyze_gguf_agree bs doc S h hS bs' hag

/-- Witness for C7: replacing the scenario file's 51 padding/payload bytes
with 255s leaves the parse unchanged. -/
theorem C7_reader_reads_only_structural_bytes_witness :
    analyze_gguf (scenarioBytes.take 189 ++ List.replicate 51 255) =
      .ok (scenarioDoc, 189) :=
  C7_reader_reads_only_structural_bytes scenarioBytes scenarioDoc 189 rfl
    (by decide) (scenarioBytes.take 189 ++ List.replicate 51 255) (by decide)

/-- Claim C3 (counterexample): the 57-byte strict prefix of the 68-byte
valid file `minValidBytes` — cutting off all padding and payload — parses
SUCCESSFULLY into a document; a strict prefix of a valid file does not
always yield an error, let alone a TruncatedInput error. -/
theorem C3_counterexample_payload_cut_parses :
    analyze_gguf (minValidBytes.take 57) = .ok (minValidDoc, 57) ∧
    minValidBytes.take 57 ≠ minValidBytes :=
  ⟨rfl, by decide⟩

/-- Claim C3 as amended: the reader has no TruncatedInput condition at
all.  On the valid file `minValidBytes` (structural section = bytes
0..56, total length 68): every prefix shorter than 57 bytes fails — with
the bad-magic ValueError when shorter than the 4 magic bytes, and with
the short-read struct.error otherwise — while every prefix of at least 57
bytes parses successfully to the same document, because the cut falls in
the pad/payload region the reader never touches. -/
theorem C3_prefix_truncation_behavior :
    ((List.range 57).all fun k => isErr (analyze_gguf (minValidBytes.take k))) = true ∧
    ((List.range 4).all fun k =>
      isErrKind .badMagic (analyze_gguf (minValidBytes.take k))) = true ∧
    ((List.range 53).all fun i =>
      isErrKind .structError (analyze_gguf (minValidBytes.take (4 + i)))) = true ∧
    (∀ k, 57 ≤ k → analyze_gguf (minValidBytes.take k) = .ok (minValidDoc, 57)) := by
  refine ⟨by decide, by decide, by decide, ?_⟩
  intro k hk
  apply analyze_gguf_agree minValidBytes minValidDoc 57 rfl (by decide)
  rw [List.take_take]
  congr 1
  omega

/-- Witness for C3's amended theorem at the 60-byte prefix. -/
theorem C3_prefix_truncation_witness :
    analyze_gguf (minValidBytes.take 60) = .ok (minValidDoc, 57) :=
  C3_prefix_truncation_behavior.2.2.2 60 (by decide)
